import Mathlib

/-!
Shallow embedding of the OpenOCD HC32L110 NOR flash driver
(`src/flash/nor/hc32l110.c`).

The driver talks to the device through a word-oriented register transport
(`target_read_u32` / `target_write_u32`).  We model each driver operation as a
pure function that returns its OpenOCD result code together with the trace of
register accesses it issues.  Reads performed by the completion poller are
abstracted as a single `Ev.poll timeout_ms` event (the readings seen by the poller are
supplied by an oracle `busy : Nat → Nat` giving the value of the `i`-th read of
the flash control register); all other accesses are recorded literally.

Machine integers are modelled as `Nat` (the C code uses `uint32_t` / `unsigned`
values throughout, except for the signed loop index of the program engine,
which is modelled as `Int`, and the `(int32_t)count` cast, modelled by `i32`).
-/

/-! ### Register map and constants (from the `#define` block) -/

def HC32L110_FLASH_CR : Nat := 0x40020020

def HC32L110_FLASH_CR_BUSY : Nat := 1 <<< 4

def HC32L110_FLASH_BYPASS : Nat := 0x4002002C

def HC32L110_FLASH_SLOCK : Nat := 0x40020030

def HC32L110_FLASH_SIZE : Nat := 0x00100C70

def FLASH_SECTOR_SIZE : Nat := 512

def SPROT_SEC_SIZE : Nat := 4096

def FLASH_OP_PROGRAM : Nat := 1

def FLASH_OP_ERASE_SECTOR : Nat := 2

def FLASH_OP_ERASE_CHIP : Nat := 3

/-- OpenOCD result codes (from public OpenOCD headers, external to this
repository; only `ERROR_OK = 0` and pairwise distinctness matter). -/
def ERROR_OK : Int := 0

def ERROR_FLASH_OPERATION_FAILED : Int := -902

def ERROR_FLASH_SECTOR_NOT_ERASED : Int := -905

/-! ### Register-access traces -/

/-- One register access issued over the transport.  `poll t` stands for one
call to `hc32l110_check_flash_completion` with timeout `t` (a sequence of reads
of the control register interleaved with sleeps). -/
inductive Ev where
  | write (addr val : Nat)
  | read (addr : Nat)
  | poll (timeout_ms : Nat)
deriving DecidableEq

/-- `hc32l110_bypass`: the two magic writes to the bypass register. -/
def bypass_tr : List Ev :=
  [Ev.write HC32L110_FLASH_BYPASS 0x5a5a, Ev.write HC32L110_FLASH_BYPASS 0xa5a5]

/-- The bit-accumulation loop of `hc32l110_sunlock`:
`for (int i=start_sec; i<end_sec; i++) b |= (1<<i);`. -/
def sunlock_bits (start_sec end_sec : Nat) : Nat :=
  if start_sec < end_sec then (1 <<< start_sec) ||| sunlock_bits (start_sec + 1) end_sec
  else 0
termination_by end_sec - start_sec

/-- The lock mask computed by `hc32l110_sunlock(start_adr, end_adr)`. -/
def hc32l110_sunlock_mask (start_adr end_adr : Nat) : Nat :=
  sunlock_bits (start_adr / SPROT_SEC_SIZE) ((end_adr + SPROT_SEC_SIZE - 1) / SPROT_SEC_SIZE)

/-- Trace of `hc32l110_sunlock`: bypass, then write the mask to SLOCK. -/
def hc32l110_sunlock_tr (start_adr end_adr : Nat) : List Ev :=
  bypass_tr ++ [Ev.write HC32L110_FLASH_SLOCK (hc32l110_sunlock_mask start_adr end_adr)]

/-- Trace of `hc32l110_slock_all`: bypass, then write 0 to SLOCK. -/
def hc32l110_slock_all_tr : List Ev :=
  bypass_tr ++ [Ev.write HC32L110_FLASH_SLOCK 0]

/-! ### Completion poller -/

/-- The polling loop of `hc32l110_check_flash_completion`.  `busy i` is the
value returned by the `i`-th read of the control register; time is modelled as
advancing 1 ms per `alive_sleep(1)`, so after the sleep of iteration `i` the
deadline test `timeval_ms() >= endtime` reads `i + 1 ≥ timeout_ms`.  Returns
`true` iff the loop exited because the busy bit read clear. -/
def poll_go (busy : Nat → Nat) (timeout_ms i : Nat) : Bool :=
  if busy i &&& HC32L110_FLASH_CR_BUSY = 0 then true
  else if timeout_ms ≤ i + 1 then false
  else poll_go busy timeout_ms (i + 1)
termination_by timeout_ms - i
decreasing_by omega

/-- `hc32l110_check_flash_completion`: runs the polling loop, then returns
`ERROR_OK` unconditionally (the loop result is not consulted). -/
def hc32l110_check_flash_completion (busy : Nat → Nat) (timeout_ms : Nat) : Int :=
  let _clears := poll_go busy timeout_ms 0
  ERROR_OK

/-! ### Erase engine -/

/-- The per-sector loop of `hc32l110_erase` (`for (x = first; x < last; x++)`),
followed by `hc32l110_slock_all` when the loop runs to completion.  `polls x`
is the busy-reading oracle for the poll issued for sector `x`. -/
def hc32l110_erase_loop (polls : Nat → Nat → Nat) (base x last : Nat) : Int × List Ev :=
  if x < last then
    let adr := base + x * FLASH_SECTOR_SIZE
    let tr := bypass_tr ++ [Ev.write HC32L110_FLASH_CR FLASH_OP_ERASE_SECTOR] ++ bypass_tr
      ++ hc32l110_sunlock_tr adr (adr + FLASH_SECTOR_SIZE)
      ++ [Ev.write HC32L110_FLASH_SLOCK (1 <<< (x / 4)), Ev.write adr 0, Ev.poll 50]
    if hc32l110_check_flash_completion (polls x) 50 ≠ ERROR_OK then
      (ERROR_FLASH_SECTOR_NOT_ERASED, tr)
    else
      let r := hc32l110_erase_loop polls base (x + 1) last
      (r.1, tr ++ r.2)
  else (ERROR_OK, hc32l110_slock_all_tr)
termination_by last - x
decreasing_by omega

/-- `hc32l110_erase(bank, first, last)` with `num_sectors = bank->num_sectors`
and `base = bank->base`. -/
def hc32l110_erase (polls : Nat → Nat → Nat) (num_sectors base first last : Nat) :
    Int × List Ev :=
  if (first ||| last) = 0 ∨ (first = 0 ∧ num_sectors ≤ last) then
    let tr := bypass_tr ++ [Ev.write HC32L110_FLASH_CR FLASH_OP_ERASE_CHIP]
      ++ hc32l110_sunlock_tr 0 (32 * 1024) ++ [Ev.write 0 0, Ev.poll 3500]
    if hc32l110_check_flash_completion (polls 0) 3500 ≠ ERROR_OK then
      (ERROR_FLASH_OPERATION_FAILED, tr)
    else (ERROR_OK, tr ++ hc32l110_slock_all_tr)
  else hc32l110_erase_loop polls base first last

/-! ### Program engine -/

/-- The value of `(int32_t)n` for a `uint32_t` value `n`. -/
def i32 (n : Nat) : Int :=
  if n % 2 ^ 32 < 2 ^ 31 then ((n % 2 ^ 32 : Nat) : Int) else (n % 2 ^ 32 : Int) - 2 ^ 32

/-- The word-gathering inner loop of `hc32l110_write_single`:
`for (b=0; b<4; b++) { v>>=8; if ((x+b) < (int32_t)count && (x+b) >= 0)
v |= buffer[x+b]<<24; else v |= 0xFF000000; }`. -/
def gather_word (buffer : List Nat) (count : Nat) (x : Int) : Nat :=
  (List.range 4).foldl (fun v b =>
    (v >>> 8) |||
      ((if x + (b : Int) < i32 count ∧ 0 ≤ x + (b : Int) then
          buffer.getD (x + (b : Int)).toNat 0
        else 0xFF) <<< 24)) 0

/-- The outer loop of `hc32l110_write_single`
(`for (int x = -neg_start; x < (int32_t)count; x += 4)`): per iteration, one
program write of the gathered word to `offset + x` followed by one poll with a
1 ms timeout, aborting if the poll reports failure. -/
def hc32l110_write_loop (polls : Nat → Nat → Nat) (buffer : List Nat)
    (offset count : Nat) (x : Int) : Int × List Ev :=
  if x < i32 count then
    let v := gather_word buffer count x
    let adr := ((offset : Int) + x).toNat
    if hc32l110_check_flash_completion (polls (x + (offset % 4 : Int)).toNat) 1 ≠ ERROR_OK then
      (ERROR_FLASH_OPERATION_FAILED, [Ev.write adr v, Ev.poll 1])
    else
      let r := hc32l110_write_loop polls buffer offset count (x + 4)
      (r.1, [Ev.write adr v, Ev.poll 1] ++ r.2)
  else (ERROR_OK, [])
termination_by (i32 count - x).toNat
decreasing_by omega

/-- The `(addr, word)` pairs programmed by the outer loop of
`hc32l110_write_single`, starting from loop index `x`. -/
def prog_writes (buffer : List Nat) (offset count : Nat) (x : Int) : List (Nat × Nat) :=
  if x < i32 count then
    (((offset : Int) + x).toNat, gather_word buffer count x) ::
      prog_writes buffer offset count (x + 4)
  else []
termination_by (i32 count - x).toNat
decreasing_by omega

/-- The full sequence of `(addr, word)` program writes issued by
`hc32l110_write_single(buffer, offset, count)` (loop index starts at
`-neg_start` where `neg_start = offset % 4`). -/
def hc32l110_prog_writes (buffer : List Nat) (offset count : Nat) : List (Nat × Nat) :=
  prog_writes buffer offset count (-(offset % 4 : Int))

/-- `hc32l110_write_single`: bypass, select the Program mode, unlock the
aligned span `[offset & ~3, (offset+count+3) & ~3)` (written here as
`n - n % 4`), run the program loop, and re-lock all regions unless the loop
aborted. -/
def hc32l110_write_single (polls : Nat → Nat → Nat) (buffer : List Nat)
    (offset count : Nat) : Int × List Ev :=
  let pre := bypass_tr ++ [Ev.write HC32L110_FLASH_CR FLASH_OP_PROGRAM]
    ++ hc32l110_sunlock_tr (offset - offset % 4) ((offset + count + 3) - (offset + count + 3) % 4)
  let r := hc32l110_write_loop polls buffer offset count (-(offset % 4 : Int))
  if r.1 ≠ ERROR_OK then (r.1, pre ++ r.2)
  else (ERROR_OK, pre ++ r.2 ++ hc32l110_slock_all_tr)

/-- `hc32l110_write`: delegates to `hc32l110_write_single`, mapping any
failure to `ERROR_FLASH_OPERATION_FAILED`. -/
def hc32l110_write (polls : Nat → Nat → Nat) (buffer : List Nat)
    (offset count : Nat) : Int × List Ev :=
  let r := hc32l110_write_single polls buffer offset count
  if r.1 ≠ ERROR_OK then (ERROR_FLASH_OPERATION_FAILED, r.2) else r

/-! ### Geometry prober -/

structure flash_sector where
  offset : Nat
  size : Nat
  is_erased : Int
  is_protected : Int
deriving DecidableEq

structure flash_bank where
  base : Nat
  size : Nat
  num_sectors : Nat
  sectors : List flash_sector
deriving DecidableEq

/-- The sector-table loop of `hc32l110_probe` (`offset` accumulates by
`sectors[i].size` per iteration, `n` sectors remain to build). -/
def build_sectors (offset : Nat) : Nat → List flash_sector
  | 0 => []
  | n + 1 =>
    { offset := offset, size := FLASH_SECTOR_SIZE, is_erased := -1, is_protected := 0 } ::
      build_sectors (offset + FLASH_SECTOR_SIZE) n

/-- `hc32l110_probe`: reads the flash-size report register (value supplied as
`flash_size`), rejects it unless `4096 ≤ flash_size ≤ 32768`, otherwise sets
the bank size and rebuilds the sector table. -/
def hc32l110_probe (flash_size : Nat) (bank : flash_bank) : Int × flash_bank × List Ev :=
  let tr := [Ev.read HC32L110_FLASH_SIZE]
  if flash_size > 32768 ∨ flash_size < 4096 then (ERROR_FLASH_OPERATION_FAILED, bank, tr)
  else
    let ns := flash_size / FLASH_SECTOR_SIZE
    (ERROR_OK,
      { bank with size := flash_size, num_sectors := ns, sectors := build_sectors 0 ns },
      tr)

/-! ### Trace predicates and observers -/

/-- The byte gathered for position `x + j` by the inner loop of
`hc32l110_write_single`. -/
def gbyte (buffer : List Nat) (count : Nat) (x : Int) (j : Nat) : Nat :=
  if x + (j : Int) < i32 count ∧ 0 ≤ x + (j : Int) then
    buffer.getD (x + (j : Int)).toNat 0
  else 0xFF

def byp1 : Ev := Ev.write HC32L110_FLASH_BYPASS 0x5a5a

def byp2 : Ev := Ev.write HC32L110_FLASH_BYPASS 0xa5a5

def isSlockWrite : Ev → Bool
  | Ev.write a _ => decide (a = HC32L110_FLASH_SLOCK)
  | _ => false

/-- Strict lock-write discipline over a trace: every write to the sector-lock
register is immediately preceded by the two bypass writes, with no other
access in between.  `a, b` are the two events preceding the current suffix
(seeded with sentinels that are not bypass writes). -/
def bypassedFrom (a b : Ev) : List Ev → Bool
  | [] => true
  | c :: rest =>
    (!(isSlockWrite c) || (decide (a = byp1) && decide (b = byp2))) && bypassedFrom b c rest

def slock_writes_bypassed (tr : List Ev) : Bool :=
  bypassedFrom (Ev.poll 0) (Ev.poll 0) tr

/-- Relaxed discipline: a lock write may also directly follow another lock
write that itself directly follows the handshake. -/
def bypassedFromW (a b : Ev) : List Ev → Bool
  | [] => true
  | c :: rest =>
    (!(isSlockWrite c) || (decide (a = byp1) && decide (b = byp2)) ||
      (isSlockWrite b && decide (a = byp2))) && bypassedFromW b c rest

def slock_writes_bypassedW (tr : List Ev) : Bool :=
  bypassedFromW (Ev.poll 0) (Ev.poll 0) tr

/-- The last two events of `l`, seeded with `a, b`. -/
def win2 (a b : Ev) : List Ev → Ev × Ev
  | [] => (a, b)
  | c :: rest => win2 b c rest

/-- Scans a trace for the first write to address `trig`, tracking the running
value `v` of the sector-lock register (last value written to it); returns the
lock value held at the moment the trigger write is issued. -/
def slockAtTrigger (trig : Nat) : Nat → List Ev → Option Nat
  | _, [] => none
  | v, Ev.write a w :: rest =>
    if a = trig then some v
    else slockAtTrigger trig (if a = HC32L110_FLASH_SLOCK then w else v) rest
  | v, Ev.read _ :: rest => slockAtTrigger trig v rest
  | v, Ev.poll _ :: rest => slockAtTrigger trig v rest

/-- Nonempty intersection of the byte span `[s, e)` with the 4 KiB lock
region `[i*4096, (i+1)*4096)`. -/
def spanIntersects (s e i : Nat) : Prop :=
  max s (i * SPROT_SEC_SIZE) < min e ((i + 1) * SPROT_SEC_SIZE)

/-! ### Basic helper lemmas -/

theorem check_ok (busy : Nat → Nat) (t : Nat) :
    hc32l110_check_flash_completion busy t = ERROR_OK := rfl

theorem lor_eq_zero_iff (a b : Nat) : a ||| b = 0 ↔ a = 0 ∧ b = 0 := by
  constructor
  · intro h
    constructor
    · apply Nat.eq_of_testBit_eq
      intro i
      have := congrArg (fun n => Nat.testBit n i) h
      simp only [Nat.testBit_lor, Nat.zero_testBit, Bool.or_eq_false_iff] at this
      simp [this.1]
    · apply Nat.eq_of_testBit_eq
      intro i
      have := congrArg (fun n => Nat.testBit n i) h
      simp only [Nat.testBit_lor, Nat.zero_testBit, Bool.or_eq_false_iff] at this
      simp [this.2]
  · rintro ⟨rfl, rfl⟩
    rfl

theorem sunlock_bits_testBit (n : Nat) :
    ∀ s e j, e - s = n → (Nat.testBit (sunlock_bits s e) j = true ↔ (s ≤ j ∧ j < e)) := by
  induction n with
  | zero =>
    intro s e j h
    rw [sunlock_bits]
    have : ¬ s < e := by omega
    simp [this]
    omega
  | succ m ih =>
    intro s e j h
    rw [sunlock_bits]
    have hs : s < e := by omega
    simp only [hs, if_true, Nat.testBit_lor, Bool.or_eq_true]
    rw [ih (s + 1) e j (by omega)]
    have h1 : (1 : Nat) <<< s = 2 ^ s := by rw [Nat.shiftLeft_eq]; omega
    rw [h1, Nat.testBit_two_pow]
    simp only [decide_eq_true_eq]
    omega

theorem sunlock_mask_testBit (s e j : Nat) :
    Nat.testBit (hc32l110_sunlock_mask s e) j = true ↔
      (s / 4096 ≤ j ∧ j < (e + 4095) / 4096) := by
  unfold hc32l110_sunlock_mask SPROT_SEC_SIZE
  exact sunlock_bits_testBit _ _ _ _ rfl

theorem sunlock_mask_full : hc32l110_sunlock_mask 0 32768 = 255 := by
  simp [hc32l110_sunlock_mask, SPROT_SEC_SIZE]
  rw [sunlock_bits, sunlock_bits, sunlock_bits, sunlock_bits, sunlock_bits,
    sunlock_bits, sunlock_bits, sunlock_bits, sunlock_bits]
  decide


/-! ### Erase-loop structure lemmas -/

theorem erase_loop_step (polls : Nat → Nat → Nat) (base x last : Nat) (h : x < last) :
    hc32l110_erase_loop polls base x last =
      ((hc32l110_erase_loop polls base (x + 1) last).1,
        (bypass_tr ++ [Ev.write HC32L110_FLASH_CR FLASH_OP_ERASE_SECTOR] ++ bypass_tr
          ++ hc32l110_sunlock_tr (base + x * FLASH_SECTOR_SIZE)
              (base + x * FLASH_SECTOR_SIZE + FLASH_SECTOR_SIZE)
          ++ [Ev.write HC32L110_FLASH_SLOCK (1 <<< (x / 4)),
              Ev.write (base + x * FLASH_SECTOR_SIZE) 0, Ev.poll 50])
          ++ (hc32l110_erase_loop polls base (x + 1) last).2) := by
  rw [hc32l110_erase_loop]
  simp [h, check_ok]

theorem erase_loop_done (polls : Nat → Nat → Nat) (base x last : Nat) (h : ¬ x < last) :
    hc32l110_erase_loop polls base x last = (ERROR_OK, hc32l110_slock_all_tr) := by
  rw [hc32l110_erase_loop]
  simp [h]

theorem erase_loop_result (polls : Nat → Nat → Nat) (base x last : Nat) :
    (hc32l110_erase_loop polls base x last).1 = ERROR_OK := by
  induction x, last using hc32l110_erase_loop.induct polls base with
  | case1 x last h hc =>
    exact absurd (check_ok (polls x) 50) hc
  | case2 x last h hc ih =>
    rw [erase_loop_step polls base x last h]
    exact ih
  | case3 x last h =>
    rw [erase_loop_done polls base x last h]

theorem erase_loop_relocks (polls : Nat → Nat → Nat) (base x last : Nat) :
    ∃ pre, (hc32l110_erase_loop polls base x last).2 = pre ++ hc32l110_slock_all_tr := by
  induction x, last using hc32l110_erase_loop.induct polls base with
  | case1 x last h hc =>
    exact absurd (check_ok (polls x) 50) hc
  | case2 x last h hc ih =>
    rw [erase_loop_step polls base x last h]
    obtain ⟨pre, hp⟩ := ih
    refine ⟨(bypass_tr ++ [Ev.write HC32L110_FLASH_CR FLASH_OP_ERASE_SECTOR] ++ bypass_tr
      ++ hc32l110_sunlock_tr (base + x * FLASH_SECTOR_SIZE)
          (base + x * FLASH_SECTOR_SIZE + FLASH_SECTOR_SIZE)
      ++ [Ev.write HC32L110_FLASH_SLOCK (1 <<< (x / 4)),
          Ev.write (base + x * FLASH_SECTOR_SIZE) 0, Ev.poll 50]) ++ pre, ?_⟩
    simp [hp]
  | case3 x last h =>
    rw [erase_loop_done polls base x last h]
    exact ⟨[], rfl⟩

theorem erase_loop_polls (polls : Nat → Nat → Nat) (base x last : Nat) :
    ∀ t, Ev.poll t ∈ (hc32l110_erase_loop polls base x last).2 → t = 50 := by
  induction x, last using hc32l110_erase_loop.induct polls base with
  | case1 x last h hc =>
    exact absurd (check_ok (polls x) 50) hc
  | case2 x last h hc ih =>
    rw [erase_loop_step polls base x last h]
    intro t ht
    simp [bypass_tr, hc32l110_sunlock_tr] at ht
    rcases ht with ht | ht
    · exact ht
    · exact ih t ht
  | case3 x last h =>
    rw [erase_loop_done polls base x last h]
    intro t ht
    simp [hc32l110_slock_all_tr, bypass_tr] at ht

/-! ### Program-engine helper lemmas -/

theorem i32_small {n : Nat} (h : n < 2 ^ 31) : i32 n = (n : Int) := by
  unfold i32
  split <;> omega

theorem getD_lt_256 (buffer : List Nat) (hb : ∀ v ∈ buffer, v < 256) (i : Nat) :
    buffer.getD i 0 < 256 := by
  rw [List.getD_eq_getElem?_getD]
  rcases h : buffer[i]? with _ | v
  · simp
  · simpa using hb v (List.getElem?_mem h)

theorem gbyte_lt_256 (buffer : List Nat) (count : Nat) (x : Int) (j : Nat)
    (hb : ∀ v ∈ buffer, v < 256) : gbyte buffer count x j < 256 := by
  unfold gbyte
  split
  · exact getD_lt_256 buffer hb _
  · omega

theorem or24 (v d : Nat) (hv : v < 2 ^ 32) :
    (v >>> 8) ||| (d <<< 24) = v / 2 ^ 8 + d * 2 ^ 24 := by
  rw [Nat.shiftRight_eq_div_pow, Nat.shiftLeft_eq]
  have h24 : v / 2 ^ 8 < 2 ^ 24 := by omega
  calc v / 2 ^ 8 ||| d * 2 ^ 24
      = 2 ^ 24 * d ||| v / 2 ^ 8 := by rw [Nat.lor_comm, Nat.mul_comm]
    _ = 2 ^ 24 * d + v / 2 ^ 8 := (Nat.mul_add_lt_is_or h24 d).symm
    _ = v / 2 ^ 8 + d * 2 ^ 24 := by ring

theorem gather_word_bytes (buffer : List Nat) (count : Nat) (x : Int)
    (hb : ∀ v ∈ buffer, v < 256) :
    gather_word buffer count x =
      gbyte buffer count x 0 + gbyte buffer count x 1 * 2 ^ 8 +
        gbyte buffer count x 2 * 2 ^ 16 + gbyte buffer count x 3 * 2 ^ 24 := by
  have h0 := gbyte_lt_256 buffer count x 0 hb
  have h1 := gbyte_lt_256 buffer count x 1 hb
  have h2 := gbyte_lt_256 buffer count x 2 hb
  have h3 := gbyte_lt_256 buffer count x 3 hb
  change (((0 >>> 8 ||| gbyte buffer count x 0 <<< 24) >>> 8 |||
    gbyte buffer count x 1 <<< 24) >>> 8 ||| gbyte buffer count x 2 <<< 24) >>> 8 |||
    gbyte buffer count x 3 <<< 24 = _
  rw [or24 0 _ (by omega)]
  rw [or24 (0 / 2 ^ 8 + gbyte buffer count x 0 * 2 ^ 24) _ (by omega)]
  rw [or24 ((0 / 2 ^ 8 + gbyte buffer count x 0 * 2 ^ 24) / 2 ^ 8 +
    gbyte buffer count x 1 * 2 ^ 24) _ (by omega)]
  rw [or24 (((0 / 2 ^ 8 + gbyte buffer count x 0 * 2 ^ 24) / 2 ^ 8 +
    gbyte buffer count x 1 * 2 ^ 24) / 2 ^ 8 + gbyte buffer count x 2 * 2 ^ 24) _ (by omega)]
  omega

theorem gather_word_lt (buffer : List Nat) (count : Nat) (x : Int)
    (hb : ∀ v ∈ buffer, v < 256) : gather_word buffer count x < 2 ^ 32 := by
  rw [gather_word_bytes buffer count x hb]
  have h0 := gbyte_lt_256 buffer count x 0 hb
  have h1 := gbyte_lt_256 buffer count x 1 hb
  have h2 := gbyte_lt_256 buffer count x 2 hb
  have h3 := gbyte_lt_256 buffer count x 3 hb
  omega

/-! ### Closed form of the program-write sequence -/

theorem prog_writes_from (buffer : List Nat) (offset count : Nat) (hc2 : count < 2 ^ 31) :
    ∀ (m k : Nat), (count + offset % 4 + 3) / 4 - k = m →
      prog_writes buffer offset count (4 * (k : Int) - (offset % 4 : Int)) =
        (List.range ((count + offset % 4 + 3) / 4 - k)).map
          (fun j => (offset - offset % 4 + 4 * (k + j),
            gather_word buffer count (4 * ((k + j : Nat) : Int) - (offset % 4 : Int)))) := by
  intro m
  induction m with
  | zero =>
    intro k hk
    rw [prog_writes, i32_small hc2, if_neg (by omega), hk]
    simp
  | succ m ih =>
    intro k hk
    rw [prog_writes, i32_small hc2, if_pos (by omega), hk, List.range_succ_eq_map,
      List.map_cons, List.map_map]
    congr 1
    · simp only [Nat.add_zero]
      congr 1
      omega
    · have h1 : (4 * (k : Int) - (offset % 4 : Int) + 4) =
          4 * ((k + 1 : Nat) : Int) - (offset % 4 : Int) := by push_cast; ring
      rw [h1, ih (k + 1) (by omega)]
      have h2 : (count + offset % 4 + 3) / 4 - (k + 1) = m := by omega
      rw [h2]
      apply List.map_congr_left
      intro j _
      simp only [Function.comp_apply]
      exact congrArg₂ Prod.mk (by omega)
        (congrArg (gather_word buffer count) (by push_cast; ring))

theorem hc32l110_prog_writes_eq (buffer : List Nat) (offset count : Nat)
    (hc2 : count < 2 ^ 31) :
    hc32l110_prog_writes buffer offset count =
      (List.range ((count + offset % 4 + 3) / 4)).map
        (fun k => (offset - offset % 4 + 4 * k,
          gather_word buffer count (4 * (k : Int) - (offset % 4 : Int)))) := by
  have h := prog_writes_from buffer offset count hc2 ((count + offset % 4 + 3) / 4) 0 (by omega)
  unfold hc32l110_prog_writes
  rw [show (-(offset % 4 : Int)) = 4 * ((0 : Nat) : Int) - (offset % 4 : Int) by push_cast; ring]
  rw [h]
  simp

/-! ### Write-loop structure lemmas -/

theorem write_loop_result (polls : Nat → Nat → Nat) (buffer : List Nat)
    (offset count : Nat) (x : Int) :
    (hc32l110_write_loop polls buffer offset count x).1 = ERROR_OK := by
  induction x using hc32l110_write_loop.induct polls buffer offset count with
  | case1 x h hc =>
    exact absurd (check_ok _ 1) hc
  | case2 x h hc ih =>
    rw [hc32l110_write_loop]
    simp only [h, if_pos]
    simp [check_ok, ih]
  | case3 x h =>
    rw [hc32l110_write_loop]
    simp [h]

theorem write_loop_trace (polls : Nat → Nat → Nat) (buffer : List Nat)
    (offset count : Nat) (x : Int) :
    (hc32l110_write_loop polls buffer offset count x).2 =
      (prog_writes buffer offset count x).flatMap
        (fun p => [Ev.write p.1 p.2, Ev.poll 1]) := by
  induction x using hc32l110_write_loop.induct polls buffer offset count with
  | case1 x h hc =>
    exact absurd (check_ok _ 1) hc
  | case2 x h hc ih =>
    rw [hc32l110_write_loop, prog_writes]
    simp only [h, if_pos]
    simp [check_ok, ih]
  | case3 x h =>
    rw [hc32l110_write_loop, prog_writes]
    simp [h]

theorem write_single_eq (polls : Nat → Nat → Nat) (buffer : List Nat)
    (offset count : Nat) :
    hc32l110_write_single polls buffer offset count =
      (ERROR_OK,
        bypass_tr ++ [Ev.write HC32L110_FLASH_CR FLASH_OP_PROGRAM]
          ++ hc32l110_sunlock_tr (offset - offset % 4)
              ((offset + count + 3) - (offset + count + 3) % 4)
          ++ (hc32l110_prog_writes buffer offset count).flatMap
              (fun p => [Ev.write p.1 p.2, Ev.poll 1])
          ++ hc32l110_slock_all_tr) := by
  unfold hc32l110_write_single hc32l110_prog_writes
  simp [write_loop_result, write_loop_trace, List.append_assoc]



/-! ### Bypass-handshake adjacency checkers -/

theorem bypassedFromW_append (a b : Ev) (l r : List Ev) :
    bypassedFromW a b (l ++ r) =
      (bypassedFromW a b l && bypassedFromW (win2 a b l).1 (win2 a b l).2 r) := by
  induction l generalizing a b with
  | nil => simp [bypassedFromW, win2]
  | cons c l ih => simp [bypassedFromW, win2, ih, Bool.and_assoc]

theorem bypassedFromW_append_all {l r : List Ev}
    (hl : ∀ a b, bypassedFromW a b l = true) (hr : ∀ a b, bypassedFromW a b r = true)
    (a b : Ev) : bypassedFromW a b (l ++ r) = true := by
  rw [bypassedFromW_append]
  simp [hl, hr]

theorem bypassedFromW_slock_all (a b : Ev) :
    bypassedFromW a b hc32l110_slock_all_tr = true := by
  simp [hc32l110_slock_all_tr, bypass_tr, bypassedFromW, isSlockWrite, byp1, byp2,
    HC32L110_FLASH_BYPASS, HC32L110_FLASH_SLOCK]

theorem bypassedFrom_slock_all (a b : Ev) :
    bypassedFrom a b hc32l110_slock_all_tr = true := by
  simp [hc32l110_slock_all_tr, bypass_tr, bypassedFrom, isSlockWrite, byp1, byp2,
    HC32L110_FLASH_BYPASS, HC32L110_FLASH_SLOCK]

theorem bypassedFromW_erase_block (adr s e val : Nat)
    (hadr : adr ≠ HC32L110_FLASH_SLOCK) (a b : Ev) :
    bypassedFromW a b
      (bypass_tr ++ [Ev.write HC32L110_FLASH_CR FLASH_OP_ERASE_SECTOR] ++ bypass_tr
        ++ hc32l110_sunlock_tr s e
        ++ [Ev.write HC32L110_FLASH_SLOCK val, Ev.write adr 0, Ev.poll 50]) = true := by
  have hadr2 : adr ≠ 0x40020030 := hadr
  simp [bypassedFromW, bypass_tr, hc32l110_sunlock_tr, isSlockWrite, byp1, byp2, hadr2,
    HC32L110_FLASH_BYPASS, HC32L110_FLASH_SLOCK, HC32L110_FLASH_CR, FLASH_OP_ERASE_SECTOR]

theorem erase_loop_bypassedW (polls : Nat → Nat → Nat) (base x last : Nat) :
    ∀ a b, base + last * FLASH_SECTOR_SIZE ≤ 32768 →
      bypassedFromW a b (hc32l110_erase_loop polls base x last).2 = true := by
  induction x, last using hc32l110_erase_loop.induct polls base with
  | case1 x last h hc =>
    exact absurd (check_ok (polls x) 50) hc
  | case2 x last h hc ih =>
    intro a b hb
    rw [erase_loop_step polls base x last h]
    have hadr : base + x * FLASH_SECTOR_SIZE ≠ HC32L110_FLASH_SLOCK := by
      unfold FLASH_SECTOR_SIZE at *
      unfold HC32L110_FLASH_SLOCK
      omega
    exact bypassedFromW_append_all (bypassedFromW_erase_block _ _ _ _ hadr)
      (fun a b => ih a b hb) a b
  | case3 x last h =>
    intro a b _
    rw [erase_loop_done polls base x last h]
    exact bypassedFromW_slock_all a b

theorem erase_bypassedW (polls : Nat → Nat → Nat) (num_sectors base first last : Nat)
    (hb : base + last * FLASH_SECTOR_SIZE ≤ 32768) :
    slock_writes_bypassedW (hc32l110_erase polls num_sectors base first last).2 = true := by
  unfold slock_writes_bypassedW hc32l110_erase
  split
  · simp [check_ok, bypassedFromW, bypass_tr, hc32l110_sunlock_tr, hc32l110_slock_all_tr,
      isSlockWrite, byp1, byp2, HC32L110_FLASH_BYPASS, HC32L110_FLASH_SLOCK,
      HC32L110_FLASH_CR, FLASH_OP_ERASE_CHIP]
  · exact erase_loop_bypassedW polls base first last _ _ hb

theorem flat_bypassedW (l : List (Nat × Nat)) :
    (∀ p ∈ l, p.1 ≠ HC32L110_FLASH_SLOCK) →
      ∀ a b, bypassedFromW a b (l.flatMap fun p => [Ev.write p.1 p.2, Ev.poll 1]) = true := by
  induction l with
  | nil =>
    intro _ a b
    simp [bypassedFromW]
  | cons p l ih =>
    intro hp a b
    have h1 : p.1 ≠ HC32L110_FLASH_SLOCK := hp p (by simp)
    have h2 := ih (fun q hq => hp q (by simp [hq])) (Ev.write p.1 p.2) (Ev.poll 1)
    simp [List.flatMap_cons, bypassedFromW, isSlockWrite, h1]
    simpa using h2

theorem bypassedFromW_write_pre (s e : Nat) (a b : Ev) :
    bypassedFromW a b
      (bypass_tr ++ [Ev.write HC32L110_FLASH_CR FLASH_OP_PROGRAM]
        ++ hc32l110_sunlock_tr s e) = true := by
  simp [bypassedFromW, bypass_tr, hc32l110_sunlock_tr, isSlockWrite, byp1, byp2,
    HC32L110_FLASH_BYPASS, HC32L110_FLASH_SLOCK, HC32L110_FLASH_CR, FLASH_OP_PROGRAM]

theorem prog_writes_addr_ne_slock (buffer : List Nat) (offset count : Nat)
    (hoc : offset + count ≤ 32768) :
    ∀ p ∈ hc32l110_prog_writes buffer offset count, p.1 ≠ HC32L110_FLASH_SLOCK := by
  intro p hp
  rw [hc32l110_prog_writes_eq buffer offset count (by omega)] at hp
  simp only [List.mem_map, List.mem_range] at hp
  obtain ⟨k, hk, rfl⟩ := hp
  unfold HC32L110_FLASH_SLOCK
  omega

theorem write_single_bypassedW (polls : Nat → Nat → Nat) (buffer : List Nat)
    (offset count : Nat) (hoc : offset + count ≤ 32768) :
    slock_writes_bypassedW (hc32l110_write_single polls buffer offset count).2 = true := by
  rw [write_single_eq]
  unfold slock_writes_bypassedW
  exact bypassedFromW_append_all
    (bypassedFromW_append_all (bypassedFromW_write_pre _ _)
      (flat_bypassedW _ (prog_writes_addr_ne_slock buffer offset count hoc)))
    bypassedFromW_slock_all _ _

/-! ### Strict-discipline lemmas (write and probe paths) -/

theorem bypassedFrom_append (a b : Ev) (l r : List Ev) :
    bypassedFrom a b (l ++ r) =
      (bypassedFrom a b l && bypassedFrom (win2 a b l).1 (win2 a b l).2 r) := by
  induction l generalizing a b with
  | nil => simp [bypassedFrom, win2]
  | cons c l ih => simp [bypassedFrom, win2, ih, Bool.and_assoc]

theorem bypassedFrom_append_all {l r : List Ev}
    (hl : ∀ a b, bypassedFrom a b l = true) (hr : ∀ a b, bypassedFrom a b r = true)
    (a b : Ev) : bypassedFrom a b (l ++ r) = true := by
  rw [bypassedFrom_append]
  simp [hl, hr]

theorem bypassedFrom_write_pre (s e : Nat) (a b : Ev) :
    bypassedFrom a b
      (bypass_tr ++ [Ev.write HC32L110_FLASH_CR FLASH_OP_PROGRAM]
        ++ hc32l110_sunlock_tr s e) = true := by
  simp [bypassedFrom, bypass_tr, hc32l110_sunlock_tr, isSlockWrite, byp1, byp2,
    HC32L110_FLASH_BYPASS, HC32L110_FLASH_SLOCK, HC32L110_FLASH_CR, FLASH_OP_PROGRAM]

theorem flat_bypassed (l : List (Nat × Nat)) :
    (∀ p ∈ l, p.1 ≠ HC32L110_FLASH_SLOCK) →
      ∀ a b, bypassedFrom a b (l.flatMap fun p => [Ev.write p.1 p.2, Ev.poll 1]) = true := by
  induction l with
  | nil =>
    intro _ a b
    simp [bypassedFrom]
  | cons p l ih =>
    intro hp a b
    have h1 : p.1 ≠ HC32L110_FLASH_SLOCK := hp p (by simp)
    have h2 := ih (fun q hq => hp q (by simp [hq])) (Ev.write p.1 p.2) (Ev.poll 1)
    simp [List.flatMap_cons, bypassedFrom, isSlockWrite, h1]
    simpa using h2

theorem write_single_bypassed (polls : Nat → Nat → Nat) (buffer : List Nat)
    (offset count : Nat) (hoc : offset + count ≤ 32768) :
    slock_writes_bypassed (hc32l110_write_single polls buffer offset count).2 = true := by
  rw [write_single_eq]
  unfold slock_writes_bypassed
  exact bypassedFrom_append_all
    (bypassedFrom_append_all (bypassedFrom_write_pre _ _)
      (flat_bypassed _ (prog_writes_addr_ne_slock buffer offset count hoc)))
    bypassedFrom_slock_all _ _

theorem probe_bypassed (flash_size : Nat) (bank : flash_bank) :
    slock_writes_bypassed (hc32l110_probe flash_size bank).2.2 = true := by
  unfold hc32l110_probe slock_writes_bypassed
  split <;> simp [bypassedFrom, isSlockWrite]

/-! ### The lock value seen by each trigger write -/

theorem slockAtTrigger_block_skip (trig adr s e val v : Nat) (rest : List Ev)
    (hB : HC32L110_FLASH_BYPASS ≠ trig) (hC : HC32L110_FLASH_CR ≠ trig)
    (hS : HC32L110_FLASH_SLOCK ≠ trig) (hA : adr ≠ trig)
    (hAS : adr ≠ HC32L110_FLASH_SLOCK) :
    slockAtTrigger trig v
      ((bypass_tr ++ [Ev.write HC32L110_FLASH_CR FLASH_OP_ERASE_SECTOR] ++ bypass_tr
        ++ hc32l110_sunlock_tr s e
        ++ [Ev.write HC32L110_FLASH_SLOCK val, Ev.write adr 0, Ev.poll 50]) ++ rest)
      = slockAtTrigger trig val rest := by
  have e1 : (HC32L110_FLASH_BYPASS = HC32L110_FLASH_SLOCK) = False := by
    simp [HC32L110_FLASH_BYPASS, HC32L110_FLASH_SLOCK]
  have e2 : (HC32L110_FLASH_CR = HC32L110_FLASH_SLOCK) = False := by
    simp [HC32L110_FLASH_CR, HC32L110_FLASH_SLOCK]
  simp [slockAtTrigger, bypass_tr, hc32l110_sunlock_tr, hB, hC, hS, hA, hAS, e1, e2]

theorem slockAtTrigger_block_hit (adr s e val v : Nat) (rest : List Ev)
    (hB : HC32L110_FLASH_BYPASS ≠ adr) (hC : HC32L110_FLASH_CR ≠ adr)
    (hS : HC32L110_FLASH_SLOCK ≠ adr) :
    slockAtTrigger adr v
      ((bypass_tr ++ [Ev.write HC32L110_FLASH_CR FLASH_OP_ERASE_SECTOR] ++ bypass_tr
        ++ hc32l110_sunlock_tr s e
        ++ [Ev.write HC32L110_FLASH_SLOCK val, Ev.write adr 0, Ev.poll 50]) ++ rest)
      = some val := by
  have e1 : (HC32L110_FLASH_BYPASS = HC32L110_FLASH_SLOCK) = False := by
    simp [HC32L110_FLASH_BYPASS, HC32L110_FLASH_SLOCK]
  have e2 : (HC32L110_FLASH_CR = HC32L110_FLASH_SLOCK) = False := by
    simp [HC32L110_FLASH_CR, HC32L110_FLASH_SLOCK]
  simp [slockAtTrigger, bypass_tr, hc32l110_sunlock_tr, hB, hC, hS, e1, e2]

theorem erase_loop_slockAtTrigger (polls : Nat → Nat → Nat) (y last : Nat) :
    ∀ x v, y ≤ x → x < last → last * FLASH_SECTOR_SIZE ≤ 32768 →
      slockAtTrigger (x * FLASH_SECTOR_SIZE) v (hc32l110_erase_loop polls 0 y last).2
        = some (1 <<< (x / 4)) := by
  induction y, last using hc32l110_erase_loop.induct polls 0 with
  | case1 y last h hc =>
    exact absurd (check_ok (polls y) 50) hc
  | case2 y last h hc ih =>
    intro x v hyx hxl hb
    rw [erase_loop_step polls 0 y last h]
    dsimp only
    simp only [Nat.zero_add]
    have hx512 : x * FLASH_SECTOR_SIZE + FLASH_SECTOR_SIZE ≤ 32768 := by
      unfold FLASH_SECTOR_SIZE at *
      have : x + 1 ≤ last := hxl
      nlinarith
    by_cases hxy : y = x
    · subst hxy
      rw [slockAtTrigger_block_hit]
      · unfold HC32L110_FLASH_BYPASS FLASH_SECTOR_SIZE at *
        omega
      · unfold HC32L110_FLASH_CR FLASH_SECTOR_SIZE at *
        omega
      · unfold HC32L110_FLASH_SLOCK FLASH_SECTOR_SIZE at *
        omega
    · rw [slockAtTrigger_block_skip]
      · exact ih x _ (by omega) hxl hb
      · unfold HC32L110_FLASH_BYPASS FLASH_SECTOR_SIZE at *
        omega
      · unfold HC32L110_FLASH_CR FLASH_SECTOR_SIZE at *
        omega
      · unfold HC32L110_FLASH_SLOCK FLASH_SECTOR_SIZE at *
        omega
      · unfold FLASH_SECTOR_SIZE at *
        omega
      · unfold HC32L110_FLASH_SLOCK FLASH_SECTOR_SIZE at *
        omega
  | case3 y last h =>
    intro x v hyx hxl hb
    omega

/-- The unlock call made for sector `x` computes exactly the lock bit of the
4 KiB region containing the sector. -/
theorem sunlock_mask_sector (x : Nat) :
    hc32l110_sunlock_mask (x * FLASH_SECTOR_SIZE) (x * FLASH_SECTOR_SIZE + FLASH_SECTOR_SIZE)
      = 1 <<< (x * FLASH_SECTOR_SIZE / SPROT_SEC_SIZE) := by
  apply Nat.eq_of_testBit_eq
  intro j
  have h1 := sunlock_mask_testBit (x * FLASH_SECTOR_SIZE)
    (x * FLASH_SECTOR_SIZE + FLASH_SECTOR_SIZE) j
  have h2 : (1 : Nat) <<< (x * FLASH_SECTOR_SIZE / SPROT_SEC_SIZE)
      = 2 ^ (x * FLASH_SECTOR_SIZE / SPROT_SEC_SIZE) := by
    rw [Nat.shiftLeft_eq, one_mul]
  rw [h2, Nat.testBit_two_pow]
  by_cases hj : x * FLASH_SECTOR_SIZE / SPROT_SEC_SIZE = j
  · simp [hj]
    apply h1.mpr
    unfold FLASH_SECTOR_SIZE SPROT_SEC_SIZE at *
    omega
  · simp [hj]
    apply Bool.eq_false_iff.mpr
    intro ht
    apply hj
    have := h1.mp ht
    unfold FLASH_SECTOR_SIZE SPROT_SEC_SIZE at *
    omega

theorem build_sectors_eq (n : Nat) : ∀ offset : Nat,
    build_sectors offset n =
      (List.range n).map
        (fun i => ⟨offset + i * FLASH_SECTOR_SIZE, FLASH_SECTOR_SIZE, -1, 0⟩) := by
  induction n with
  | zero =>
    intro offset
    simp [build_sectors]
  | succ n ih =>
    intro offset
    rw [build_sectors, ih, List.range_succ_eq_map, List.map_cons, List.map_map]
    refine congrArg₂ List.cons (by simp) (List.map_congr_left ?_)
    intro j hj
    simp only [Function.comp_apply, flash_sector.mk.injEq, and_true, true_and,
      Nat.succ_eq_add_one]
    ring

/-! ## Claim theorems -/

/-- C1: the claim states that when the busy bit (bit 4 of the flash control
register) never reads clear before the deadline, the completion poller returns
a Timeout result which callers map to OperationFailed / SectorNotErased.  The
code does not do this: with the busy bit permanently set (every read returns
0x10) and a 50 ms timeout, the polling loop exits on the deadline without the
busy bit ever reading clear (`poll_go … = false`), yet
`hc32l110_check_flash_completion` still returns `ERROR_OK`, and a per-sector
erase whose poll never sees the busy bit clear still returns `ERROR_OK`
instead of `ERROR_FLASH_SECTOR_NOT_ERASED`. -/
theorem C1_poller_returns_ok_on_timeout :
    hc32l110_check_flash_completion (fun _ => 0x10) 50 = ERROR_OK
    ∧ poll_go (fun _ => 0x10) 50 0 = false
    ∧ (hc32l110_erase (fun _ _ => 0x10) 64 0 2 3).1 = ERROR_OK
    ∧ ERROR_OK ≠ ERROR_FLASH_SECTOR_NOT_ERASED := by
  refine ⟨rfl, ?_, ?_, by decide⟩
  · simp [poll_go, HC32L110_FLASH_CR_BUSY]
  · rw [hc32l110_erase, if_neg (by decide)]
    exact erase_loop_result _ _ _ _

/-- C10: the completion poller returns `ERROR_OK` on every call, for every
timeout and every sequence of busy-bit readings; consequently the failure
branches of erase and write are unreachable and erase, write_single and write
always return `ERROR_OK`. -/
theorem C10_no_failure_paths :
    (∀ (busy : Nat → Nat) (t : Nat), hc32l110_check_flash_completion busy t = ERROR_OK)
    ∧ (∀ (polls : Nat → Nat → Nat) (num_sectors base first last : Nat),
        (hc32l110_erase polls num_sectors base first last).1 = ERROR_OK)
    ∧ (∀ (polls : Nat → Nat → Nat) (buffer : List Nat) (offset count : Nat),
        (hc32l110_write_single polls buffer offset count).1 = ERROR_OK)
    ∧ (∀ (polls : Nat → Nat → Nat) (buffer : List Nat) (offset count : Nat),
        (hc32l110_write polls buffer offset count).1 = ERROR_OK) := by
  have hs : ∀ (polls : Nat → Nat → Nat) (buffer : List Nat) (offset count : Nat),
      (hc32l110_write_single polls buffer offset count).1 = ERROR_OK := by
    intro polls buffer offset count
    rw [write_single_eq]
  refine ⟨check_ok, ?_, hs, ?_⟩
  · intro polls num_sectors base first last
    rw [hc32l110_erase]
    split
    · simp [check_ok]
    · exact erase_loop_result _ _ _ _
  · intro polls buffer offset count
    unfold hc32l110_write
    simp [hs polls buffer offset count]

/-- C9: every terminating execution of the per-sector erase path ends by
re-locking all regions — the trace ends with `hc32l110_slock_all_tr`
(bypass handshake followed by writing 0 to the sector-lock register) — before
the erase call returns.  (With the completion poller of this driver the per-sector
loop never aborts, so this covers every execution of the path.) -/
theorem C9_per_sector_erase_relocks (polls : Nat → Nat → Nat)
    (num_sectors base first last : Nat)
    (h : ¬ ((first ||| last) = 0 ∨ (first = 0 ∧ num_sectors ≤ last))) :
    ∃ pre, (hc32l110_erase polls num_sectors base first last).2
      = pre ++ hc32l110_slock_all_tr := by
  rw [hc32l110_erase, if_neg h]
  exact erase_loop_relocks polls base first last

/-- Witness for C9 at the concrete per-sector request erase(first=1, last=2). -/
theorem C9_per_sector_erase_relocks_witness :
    ¬ ((((1 : Nat) ||| 2) = 0) ∨ ((1 : Nat) = 0 ∧ (64 : Nat) ≤ 2))
    ∧ ∃ pre, (hc32l110_erase (fun _ _ => 0) 64 0 1 2).2 = pre ++ hc32l110_slock_all_tr :=
  ⟨by decide, C9_per_sector_erase_relocks (fun _ _ => 0) 64 0 1 2 (by decide)⟩

/-- C5: the mass-erase path is taken iff `(first = 0 ∧ last = 0)` or
`(first = 0 ∧ last ≥ num_sectors)`; on that path the driver writes mode
EraseChip (3) to the control register, unlocks the full span `[0, 32768)`
(lock mask 0xFF), writes the trigger to address 0 and polls with a 3500 ms
timeout; on the per-sector path every poll uses a 50 ms timeout. -/
theorem C5_mass_erase_condition (polls : Nat → Nat → Nat)
    (num_sectors base first last : Nat) :
    (((first ||| last) = 0 ∨ (first = 0 ∧ num_sectors ≤ last)) ↔
      ((first = 0 ∧ last = 0) ∨ (first = 0 ∧ num_sectors ≤ last)))
    ∧ (((first = 0 ∧ last = 0) ∨ (first = 0 ∧ num_sectors ≤ last)) →
        hc32l110_erase polls num_sectors base first last =
          (ERROR_OK,
            bypass_tr ++ [Ev.write HC32L110_FLASH_CR FLASH_OP_ERASE_CHIP]
              ++ bypass_tr ++ [Ev.write HC32L110_FLASH_SLOCK 0xFF]
              ++ [Ev.write 0 0, Ev.poll 3500] ++ hc32l110_slock_all_tr))
    ∧ (¬ ((first = 0 ∧ last = 0) ∨ (first = 0 ∧ num_sectors ≤ last)) →
        ∀ t, Ev.poll t ∈ (hc32l110_erase polls num_sectors base first last).2 → t = 50) := by
  have hiff : ((first ||| last) = 0 ∨ (first = 0 ∧ num_sectors ≤ last)) ↔
      ((first = 0 ∧ last = 0) ∨ (first = 0 ∧ num_sectors ≤ last)) := by
    rw [lor_eq_zero_iff]
  refine ⟨hiff, ?_, ?_⟩
  · intro h
    rw [hc32l110_erase, if_pos (hiff.mpr h)]
    simp [check_ok, hc32l110_sunlock_tr, sunlock_mask_full, List.append_assoc]
  · intro h t ht
    rw [hc32l110_erase, if_neg (fun hc => h (hiff.mp hc))] at ht
    exact erase_loop_polls polls base first last t ht

/-- Witness for C5: erase(0, 64) on a 64-sector bank takes the mass-erase path
with the 3500 ms poll, and erase(1, 2) never polls with 3500 ms. -/
theorem C5_mass_erase_condition_witness :
    (((0 : Nat) = 0 ∧ (64 : Nat) = 0) ∨ ((0 : Nat) = 0 ∧ (64 : Nat) ≤ 64))
    ∧ hc32l110_erase (fun _ _ => 0) 64 0 0 64 =
        (ERROR_OK,
          bypass_tr ++ [Ev.write HC32L110_FLASH_CR FLASH_OP_ERASE_CHIP]
            ++ bypass_tr ++ [Ev.write HC32L110_FLASH_SLOCK 0xFF]
            ++ [Ev.write 0 0, Ev.poll 3500] ++ hc32l110_slock_all_tr)
    ∧ Ev.poll 3500 ∉ (hc32l110_erase (fun _ _ => 0) 64 0 1 2).2 := by
  refine ⟨by decide, (C5_mass_erase_condition (fun _ _ => 0) 64 0 0 64).2.1 (by decide), ?_⟩
  intro hmem
  have := (C5_mass_erase_condition (fun _ _ => 0) 64 0 1 2).2.2 (by decide) 3500 hmem
  exact absurd this (by decide)

/-- C3: for every valid byte range `[offset, offset+count)` with `count > 0`,
the trace of `hc32l110_write_single` is the setup (bypass, Program mode,
unlock of the aligned span) followed by exactly one word write + poll per
programmed word and the final re-lock; and the programmed word addresses are
exactly the 4-byte-aligned addresses of the span
`[offset & ~3, (offset+count+3) & ~3)` (written `n - n % 4`), enumerated in
ascending order with no gaps and no address twice. -/
theorem C3_prog_words_cover_aligned_span (polls : Nat → Nat → Nat) (buffer : List Nat)
    (offset count : Nat) (h1 : 0 < count) (h2 : offset + count ≤ 32768) :
    (hc32l110_write_single polls buffer offset count).2
      = bypass_tr ++ [Ev.write HC32L110_FLASH_CR FLASH_OP_PROGRAM]
        ++ hc32l110_sunlock_tr (offset - offset % 4)
            ((offset + count + 3) - (offset + count + 3) % 4)
        ++ (hc32l110_prog_writes buffer offset count).flatMap
            (fun p => [Ev.write p.1 p.2, Ev.poll 1])
        ++ hc32l110_slock_all_tr
    ∧ (hc32l110_prog_writes buffer offset count).map Prod.fst
      = (List.range ((((offset + count + 3) - (offset + count + 3) % 4)
            - (offset - offset % 4)) / 4)).map (fun k => (offset - offset % 4) + 4 * k) := by
  constructor
  · rw [write_single_eq]
  · rw [hc32l110_prog_writes_eq buffer offset count (by omega), List.map_map]
    have hW : (count + offset % 4 + 3) / 4
        = (((offset + count + 3) - (offset + count + 3) % 4) - (offset - offset % 4)) / 4 := by
      omega
    rw [← hW]
    apply List.map_congr_left
    intro k _
    simp [Function.comp]

/-- Witness for C3 at write(buffer=[0xAA,0xBB,0xCC], offset=2, count=3). -/
theorem C3_prog_words_cover_aligned_span_witness :
    ((0 : Nat) < 3 ∧ (2 : Nat) + 3 ≤ 32768)
    ∧ ((hc32l110_write_single (fun _ _ => 0) [0xAA, 0xBB, 0xCC] 2 3).2
        = bypass_tr ++ [Ev.write HC32L110_FLASH_CR FLASH_OP_PROGRAM]
          ++ hc32l110_sunlock_tr (2 - 2 % 4) ((2 + 3 + 3) - (2 + 3 + 3) % 4)
          ++ (hc32l110_prog_writes [0xAA, 0xBB, 0xCC] 2 3).flatMap
              (fun p => [Ev.write p.1 p.2, Ev.poll 1])
          ++ hc32l110_slock_all_tr
      ∧ (hc32l110_prog_writes [0xAA, 0xBB, 0xCC] 2 3).map Prod.fst
        = (List.range ((((2 + 3 + 3) - (2 + 3 + 3) % 4) - (2 - 2 % 4)) / 4)).map
            (fun k => (2 - 2 % 4) + 4 * k)) :=
  ⟨⟨by decide, by decide⟩,
    C3_prog_words_cover_aligned_span (fun _ _ => 0) [0xAA, 0xBB, 0xCC] 2 3
      (by decide) (by decide)⟩

/-- C4: each programmed word carries, at each of its four little-endian byte
positions, the corresponding buffer byte when the bank-relative byte index
lies inside `[offset, offset+count)`, and 0xFF otherwise; in particular
write(buffer=[0xAA,0xBB,0xCC], offset=2, count=3) issues exactly word
0xBBAAFFFF (LE bytes FF FF AA BB) at address 0 and word 0xFFFFFFCC (LE bytes
CC FF FF FF) at address 4. -/
theorem C4_prog_word_bytes (buffer : List Nat) (offset count : Nat)
    (hb : ∀ v ∈ buffer, v < 256) (hcnt : count ≤ 32768) :
    (∀ p ∈ hc32l110_prog_writes buffer offset count, ∀ j : Nat, j < 4 →
        (p.2 >>> (8 * j)) % 256 =
          if offset ≤ p.1 + j ∧ p.1 + j < offset + count then
            buffer.getD (p.1 + j - offset) 0
          else 0xFF)
    ∧ hc32l110_prog_writes [0xAA, 0xBB, 0xCC] 2 3 = [(0, 0xBBAAFFFF), (4, 0xFFFFFFCC)] := by
  constructor
  · intro p hp j hj
    rw [hc32l110_prog_writes_eq buffer offset count (by omega)] at hp
    simp only [List.mem_map, List.mem_range] at hp
    obtain ⟨k, hk, rfl⟩ := hp
    dsimp only
    have hx : ∀ jj : Nat,
        gbyte buffer count (4 * (k : Int) - (offset % 4 : Int)) jj =
          if offset ≤ (offset - offset % 4 + 4 * k) + jj ∧
              (offset - offset % 4 + 4 * k) + jj < offset + count then
            buffer.getD ((offset - offset % 4 + 4 * k) + jj - offset) 0
          else 0xFF := by
      intro jj
      unfold gbyte
      rw [i32_small (by omega : count < 2 ^ 31)]
      by_cases hc1 : offset ≤ (offset - offset % 4 + 4 * k) + jj ∧
          (offset - offset % 4 + 4 * k) + jj < offset + count
      · rw [if_pos (by omega), if_pos hc1]
        exact congrArg (fun i => buffer.getD i 0) (by omega)
      · rw [if_neg (by omega), if_neg hc1]
    rw [gather_word_bytes buffer count _ hb]
    have h0 := gbyte_lt_256 buffer count (4 * (k : Int) - (offset % 4 : Int)) 0 hb
    have h1 := gbyte_lt_256 buffer count (4 * (k : Int) - (offset % 4 : Int)) 1 hb
    have h2 := gbyte_lt_256 buffer count (4 * (k : Int) - (offset % 4 : Int)) 2 hb
    have h3 := gbyte_lt_256 buffer count (4 * (k : Int) - (offset % 4 : Int)) 3 hb
    interval_cases j
    · rw [← hx 0, Nat.shiftRight_eq_div_pow]
      omega
    · rw [← hx 1, Nat.shiftRight_eq_div_pow]
      omega
    · rw [← hx 2, Nat.shiftRight_eq_div_pow]
      omega
    · rw [← hx 3, Nat.shiftRight_eq_div_pow]
      omega
  · simp [hc32l110_prog_writes, prog_writes, i32, gather_word]
    decide

/-- Witness for C4 at write(buffer=[0xAA,0xBB,0xCC], offset=2, count=3). -/
theorem C4_prog_word_bytes_witness :
    ((∀ v ∈ [0xAA, 0xBB, 0xCC], v < 256) ∧ (3 : Nat) ≤ 32768)
    ∧ ((∀ p ∈ hc32l110_prog_writes [0xAA, 0xBB, 0xCC] 2 3, ∀ j : Nat, j < 4 →
          (p.2 >>> (8 * j)) % 256 =
            if 2 ≤ p.1 + j ∧ p.1 + j < 2 + 3 then
              List.getD [0xAA, 0xBB, 0xCC] (p.1 + j - 2) 0
            else 0xFF)
      ∧ hc32l110_prog_writes [0xAA, 0xBB, 0xCC] 2 3 = [(0, 0xBBAAFFFF), (4, 0xFFFFFFCC)]) :=
  ⟨⟨by decide, by decide⟩, C4_prog_word_bytes [0xAA, 0xBB, 0xCC] 2 3 (by decide) (by decide)⟩

/-- C6 as stated is false: for the empty span `[100, 100)` (allowed by the
hypothesis of the claim `0 ≤ start_addr ≤ end_addr`) the unlock routine still sets
bit 0 of the mask, although the span intersects no region. -/
theorem C6_sunlock_intersection_counterexample :
    (0 : Nat) ≤ 100 ∧ (100 : Nat) ≤ 100
    ∧ Nat.testBit (hc32l110_sunlock_mask 100 100) 0 = true
    ∧ ¬ spanIntersects 100 100 0 := by
  refine ⟨by decide, by decide, ?_, ?_⟩
  · exact (sunlock_mask_testBit 100 100 0).mpr (by decide)
  · unfold spanIntersects SPROT_SEC_SIZE
    decide

/-- C6 (amended): for every nonempty span `[start_addr, end_addr)`
(`start_addr < end_addr`), bit `i` of the mask computed by the unlock routine
is set iff the span intersects the 4 KiB region `[i*4096, (i+1)*4096)`, for
every region index `i`. -/
theorem C6_sunlock_intersection_amended (s e i : Nat) (h : s < e) :
    Nat.testBit (hc32l110_sunlock_mask s e) i = true ↔ spanIntersects s e i := by
  rw [sunlock_mask_testBit]
  unfold spanIntersects SPROT_SEC_SIZE
  omega

/-- Witness for the amended C6 at span [0, 512), region 0. -/
theorem C6_sunlock_intersection_amended_witness :
    (0 : Nat) < 512
    ∧ (Nat.testBit (hc32l110_sunlock_mask 0 512) 0 = true ↔ spanIntersects 0 512 0) :=
  ⟨by decide, C6_sunlock_intersection_amended 0 512 0 (by decide)⟩

/-- C7: probe fails exactly when the reported flash size lies outside
[4096, 32768]; on rejection the bank is left unchanged; on success it sets
`bank.size` to the reported value and rebuilds `size / 512` sectors at
offsets 0, 512, 1024, …, each 512 bytes, erased-state unknown (-1) and
unprotected (0). -/
theorem C7_probe_size_validation (flash_size : Nat) (bank : flash_bank) :
    ((hc32l110_probe flash_size bank).1 = ERROR_OK ↔
      (4096 ≤ flash_size ∧ flash_size ≤ 32768))
    ∧ (flash_size < 4096 ∨ 32768 < flash_size →
        (hc32l110_probe flash_size bank).2.1 = bank)
    ∧ (4096 ≤ flash_size → flash_size ≤ 32768 →
        (hc32l110_probe flash_size bank).2.1 =
          { bank with
            size := flash_size,
            num_sectors := flash_size / FLASH_SECTOR_SIZE,
            sectors := (List.range (flash_size / FLASH_SECTOR_SIZE)).map
              (fun i => ⟨i * FLASH_SECTOR_SIZE, FLASH_SECTOR_SIZE, -1, 0⟩) }) := by
  unfold hc32l110_probe
  by_cases h : flash_size > 32768 ∨ flash_size < 4096
  · rw [if_pos h]
    refine ⟨?_, fun _ => rfl, ?_⟩
    · constructor
      · intro habs
        dsimp only at habs
        unfold ERROR_FLASH_OPERATION_FAILED ERROR_OK at habs
        omega
      · intro hsz
        omega
    · intro h1 h2
      omega
  · rw [if_neg h]
    refine ⟨?_, ?_, ?_⟩
    · constructor
      · intro _
        omega
      · intro _
        rfl
    · intro hsz
      omega
    · intro h1 h2
      dsimp only
      rw [build_sectors_eq]
      congr 1
      apply List.map_congr_left
      intro j _
      simp

/-- Witness for C7: a 16 KiB report is accepted and builds the 32-sector
table; a 4095-byte report is rejected. -/
theorem C7_probe_size_validation_witness :
    ((4096 : Nat) ≤ 16384 ∧ (16384 : Nat) ≤ 32768)
    ∧ (hc32l110_probe 16384 ⟨0, 0x8000, 0, []⟩).2.1 =
        { base := 0, size := 16384, num_sectors := 16384 / FLASH_SECTOR_SIZE,
          sectors := (List.range (16384 / FLASH_SECTOR_SIZE)).map
            (fun i => ⟨i * FLASH_SECTOR_SIZE, FLASH_SECTOR_SIZE, -1, 0⟩) }
    ∧ (hc32l110_probe 4095 ⟨0, 0x8000, 0, []⟩).1 ≠ ERROR_OK := by
  refine ⟨⟨by decide, by decide⟩, ?_, ?_⟩
  · exact (C7_probe_size_validation 16384 ⟨0, 0x8000, 0, []⟩).2.2 (by decide) (by decide)
  · intro habs
    have := (C7_probe_size_validation 4095 ⟨0, 0x8000, 0, []⟩).1.mp habs
    omega

/-- C2 as stated is false: in the per-sector erase of sector 4 (request
erase(4, 5)), the last value written to the sector-lock register before the
trigger write to the base address of the sector 4*512 = 2048 is 2 = `1 << (4/4)`,
not the region bit `1 << (4*512/4096)` = 1 of the 4 KiB region of the sector. -/
theorem C2_slock_at_trigger_counterexample :
    slockAtTrigger (4 * FLASH_SECTOR_SIZE) 0 ((hc32l110_erase (fun _ _ => 0) 64 0 4 5).2)
      = some 2
    ∧ (2 : Nat) ≠ 1 <<< (4 * FLASH_SECTOR_SIZE / SPROT_SEC_SIZE) := by
  constructor
  · rw [hc32l110_erase, if_neg (by decide)]
    rw [erase_loop_step _ _ _ _ (by decide), erase_loop_done _ _ _ _ (by decide)]
    dsimp only
    simp [slockAtTrigger, bypass_tr, hc32l110_sunlock_tr, hc32l110_slock_all_tr,
      HC32L110_FLASH_BYPASS, HC32L110_FLASH_CR, HC32L110_FLASH_SLOCK,
      FLASH_SECTOR_SIZE, FLASH_OP_ERASE_SECTOR]
  · unfold FLASH_SECTOR_SIZE SPROT_SEC_SIZE
    decide

/-- C2 (amended): in the per-sector erase loop, the `hc32l110_sunlock` call
made for sector `x` computes exactly the lock bit of the 4 KiB region of the sector (bit `x*512/4096`); however, it is followed by a further lock-register
write of `1 << (x/4)`, so the value held by the sector-lock register (last
value written to it) at the moment the trigger write to the sector base
address is issued is `1 << (x/4)`, which equals the region bit of the sector
exactly when `x < 4`. -/
theorem C2_slock_at_trigger_amended (polls : Nat → Nat → Nat)
    (num_sectors first last x : Nat)
    (hmass : ¬ ((first ||| last) = 0 ∨ (first = 0 ∧ num_sectors ≤ last)))
    (hx1 : first ≤ x) (hx2 : x < last) (hb : last * FLASH_SECTOR_SIZE ≤ 32768) :
    hc32l110_sunlock_mask (x * FLASH_SECTOR_SIZE) (x * FLASH_SECTOR_SIZE + FLASH_SECTOR_SIZE)
        = 1 <<< (x * FLASH_SECTOR_SIZE / SPROT_SEC_SIZE)
    ∧ slockAtTrigger (x * FLASH_SECTOR_SIZE) 0
        (hc32l110_erase polls num_sectors 0 first last).2 = some (1 <<< (x / 4))
    ∧ (x < 4 → (1 : Nat) <<< (x / 4) = 1 <<< (x * FLASH_SECTOR_SIZE / SPROT_SEC_SIZE)) := by
  refine ⟨sunlock_mask_sector x, ?_, ?_⟩
  · rw [hc32l110_erase, if_neg hmass]
    exact erase_loop_slockAtTrigger polls first last x 0 hx1 hx2 hb
  · intro hx4
    have e1 : x / 4 = 0 := by omega
    have e2 : x * FLASH_SECTOR_SIZE / SPROT_SEC_SIZE = 0 := by
      unfold FLASH_SECTOR_SIZE SPROT_SEC_SIZE
      omega
    rw [e1, e2]

/-- Witness for the amended C2 at erase(4, 5) on a 64-sector bank. -/
theorem C2_slock_at_trigger_amended_witness :
    (¬ ((((4 : Nat) ||| 5) = 0) ∨ ((4 : Nat) = 0 ∧ (64 : Nat) ≤ 5))
      ∧ (4 : Nat) ≤ 4 ∧ (4 : Nat) < 5 ∧ 5 * FLASH_SECTOR_SIZE ≤ 32768)
    ∧ (hc32l110_sunlock_mask (4 * FLASH_SECTOR_SIZE)
          (4 * FLASH_SECTOR_SIZE + FLASH_SECTOR_SIZE)
        = 1 <<< (4 * FLASH_SECTOR_SIZE / SPROT_SEC_SIZE)
      ∧ slockAtTrigger (4 * FLASH_SECTOR_SIZE) 0
          (hc32l110_erase (fun _ _ => 0) 64 0 4 5).2 = some (1 <<< (4 / 4))
      ∧ ((4 : Nat) < 4 → (1 : Nat) <<< (4 / 4)
          = 1 <<< (4 * FLASH_SECTOR_SIZE / SPROT_SEC_SIZE))) :=
  ⟨⟨by decide, by decide, by decide, by decide⟩,
    C2_slock_at_trigger_amended (fun _ _ => 0) 64 4 5 4 (by decide) (by decide)
      (by decide) (by decide)⟩

/-- C8 as stated is false: in the per-sector erase of sector 0 (request
erase(0, 1)), the extra lock-register write `1 << (x/4)` issued right after
the `hc32l110_sunlock` call is immediately preceded by another lock-register
write, not by the bypass handshake, so the strict discipline checker rejects
the trace. -/
theorem C8_bypass_discipline_counterexample :
    slock_writes_bypassed ((hc32l110_erase (fun _ _ => 0) 64 0 0 1).2) = false := by
  rw [hc32l110_erase, if_neg (by decide)]
  rw [erase_loop_step _ _ _ _ (by decide), erase_loop_done _ _ _ _ (by decide)]
  dsimp only
  simp [slock_writes_bypassed, bypassedFrom, bypass_tr, hc32l110_sunlock_tr,
    hc32l110_slock_all_tr, isSlockWrite, byp1, byp2, HC32L110_FLASH_BYPASS,
    HC32L110_FLASH_CR, HC32L110_FLASH_SLOCK, FLASH_SECTOR_SIZE, FLASH_OP_ERASE_SECTOR]

/-- C8 (amended): in every execution of erase, write or probe, every write to
the sector-lock register (0x40020030) is immediately preceded either by the
bypass handshake (0x5a5a then 0xa5a5 to 0x4002002C, with no other access in
between) or — only for the extra per-sector-loop lock write of
`1 << (x/4)` — by another lock-register write that itself immediately follows
the handshake; for write and probe the strict discipline holds. -/
theorem C8_bypass_discipline_amended (polls : Nat → Nat → Nat)
    (num_sectors base first last offset count flash_size : Nat) (buffer : List Nat)
    (bank : flash_bank)
    (hb : base + last * FLASH_SECTOR_SIZE ≤ 32768) (hoc : offset + count ≤ 32768) :
    slock_writes_bypassedW (hc32l110_erase polls num_sectors base first last).2 = true
    ∧ slock_writes_bypassed (hc32l110_write_single polls buffer offset count).2 = true
    ∧ slock_writes_bypassed (hc32l110_probe flash_size bank).2.2 = true :=
  ⟨erase_bypassedW polls num_sectors base first last hb,
    write_single_bypassed polls buffer offset count hoc,
    probe_bypassed flash_size bank⟩

/-- Witness for the amended C8 at erase(0, 1), write(offset=2, count=3) and
probe(16384). -/
theorem C8_bypass_discipline_amended_witness :
    ((0 : Nat) + 1 * FLASH_SECTOR_SIZE ≤ 32768 ∧ (2 : Nat) + 3 ≤ 32768)
    ∧ (slock_writes_bypassedW (hc32l110_erase (fun _ _ => 0) 64 0 0 1).2 = true
      ∧ slock_writes_bypassed
          (hc32l110_write_single (fun _ _ => 0) [0xAA, 0xBB, 0xCC] 2 3).2 = true
      ∧ slock_writes_bypassed (hc32l110_probe 16384 ⟨0, 0x8000, 0, []⟩).2.2 = true) :=
  ⟨⟨by decide, by decide⟩,
    C8_bypass_discipline_amended (fun _ _ => 0) 64 0 0 1 2 3 16384 [0xAA, 0xBB, 0xCC]
      ⟨0, 0x8000, 0, []⟩ (by decide) (by decide)⟩
